import Mathlib

namespace XUsernames

/-!
# Verification of the X Username Manager backend (src/server.js)

A shallow embedding of the Express/sql.js server in `src/server.js`.

* Strings are Lean `String`s; the JavaScript string operations used by the
  server (`replace(/^@/, '')`, `trim()`, `toLowerCase()`) are modelled on the
  underlying character lists.  `toLowerCase` is modelled on the basic-latin
  range (the range JS and Lean agree on), `trim` on the ASCII whitespace
  characters.
* The `usernames` table is a list of rows plus the next `AUTOINCREMENT` id.
  `SELECT`/`INSERT`/`UPDATE`/`DELETE` statements become list operations;
  `ORDER BY` becomes `List.mergeSort` with the corresponding key;
  SQL `LIKE` (with its `%`/`_` wildcards and ASCII case-insensitivity)
  is implemented as an executable matcher `likeM`.
* The `UNIQUE(username, list_type)` constraint of the schema aborts a
  statement that would violate it; sql.js raises an error which the
  route's `catch` turns into a 500 response.  The `PUT` handler model
  reflects this.
* Each route handler is a pure function from the database state and the
  request data to a response value and the new state.
-/
/-! ## Characters: JS `toLowerCase` and whitespace -/
/-- Code points that `String.prototype.trim` removes, restricted to the ASCII
control/space characters that can occur in the inputs we model. -/
def isWs (c : Char) : Bool :=
  c.toNat == 32 || c.toNat == 9 || c.toNat == 10 ||
  c.toNat == 13 || c.toNat == 11 || c.toNat == 12

/-! ## JS string operations on character lists -/
/-- JS `username.replace(/^@/, '')`: removes one leading `@` if present. -/
def stripAt : List Char → List Char
  | '@' :: r => r
  | l => l

/-- JS `String.prototype.trim` on a character list. -/
def trimC (l : List Char) : List Char :=
  (((l.dropWhile isWs).reverse.dropWhile isWs)).reverse

/-- JS `toLowerCase` on a character list. -/
def lowerC (l : List Char) : List Char := l.map Char.toLower

/-- The cleaning step `username.replace(/^@/, '').trim().toLowerCase()` from the POST / PUT /
bulk handlers. -/
def cleanL (l : List Char) : List Char := lowerC (trimC (stripAt l))

/-- The same cleaning step on `String`. -/
def cleanU (s : String) : String := ⟨cleanL s.data⟩

/-- A trimmed list has no whitespace at either end (the sense in which a
stored username has "no surrounding whitespace"). -/
def edgeClean (l : List Char) : Bool :=
  (match l.head? with
   | none => true
   | some c => !isWs c) &&
  (match l.getLast? with
   | none => true
   | some c => !isWs c)

/-! ## SQL `LIKE` and `ORDER BY` primitives -/
/-- SQLite `LIKE`: `%` matches any sequence, `_` any single character,
letters compare case-insensitively (ASCII, the default `LIKE` behaviour). -/
def likeM : List Char → List Char → Bool
  | [], s => s.isEmpty
  | c :: p2, s =>
    if c = '%' then (s.tails).any (fun s2 => likeM p2 s2)
    else
      match s with
      | [] => false
      | d :: s2 => (c = '_' || (Char.toLower c == Char.toLower d)) && likeM p2 s2

/-- The pattern the search route binds: `'%' + q + '%'`. -/
def patFor (q : String) : List Char := '%' :: (q.data ++ ['%'])

/-- BINARY collation order on text, used by `ORDER BY list_type`. -/
def ltChars : List Char → List Char → Bool
  | [], [] => false
  | [], _ :: _ => true
  | _ :: _, [] => false
  | a :: xs, b :: ys =>
    if a.toNat < b.toNat then true
    else if b.toNat < a.toNat then false
    else ltChars xs ys

/-! ## Data model: the `usernames` table -/
/-- One row of the `usernames` table.  Field order:
id, username, list_type, display_name, notes, created_at, updated_at. -/
structure Row where
  id : Nat
  username : String
  list_type : String
  display_name : Option String
  notes : Option String
  created_at : Nat
  updated_at : Nat
deriving Repr, DecidableEq

/-- Database state: the table rows (in rowid order) and the next
`AUTOINCREMENT` id. -/
structure DB where
  rows : List Row
  nextId : Nat
deriving Repr, DecidableEq

/-- A freshly created database (`new SQL.Database()` + `CREATE TABLE`). -/
def initDB : DB := ⟨[], 1⟩

/-- The check `['following', 'followers'].includes(list_type)`. -/
def validListType (s : String) : Bool := s == "following" || s == "followers"

/-- JavaScript string falsiness for an optional request field:
absent (`undefined`) or the empty string. -/
def falsy : Option String → Bool
  | none => true
  | some s => s == ""

def truthy (o : Option String) : Bool := !falsy o

/-- JS `x || null` applied to an optional string field. -/
def orNull : Option String → Option String
  | some "" => none
  | o => o

/-- Whether `SELECT id FROM usernames WHERE username = ? AND list_type = ?` is
non-empty. -/
def hasPair (rows : List Row) (u lt : String) : Bool :=
  rows.any (fun r => r.username == u && r.list_type == lt)

/-- The query `SELECT * FROM usernames WHERE id = ?` (first match). -/
def findById (rows : List Row) (id : Nat) : Option Row :=
  rows.find? (fun r => r.id == id)

/-- The `ORDER BY created_at DESC` comparison. -/
def leCreated (a b : Row) : Bool := decide (b.created_at ≤ a.created_at)

/-- The `ORDER BY list_type, created_at DESC` comparison. -/
def leListCreated (a b : Row) : Bool :=
  ltChars a.list_type.data b.list_type.data ||
  (a.list_type == b.list_type && decide (b.created_at ≤ a.created_at))

/-! ## Route handlers -/
/-- Route `GET /api/usernames`: optional `list_type` filter; an invalid or absent
filter falls through to the unfiltered query. -/
def listHandler (db : DB) (list_type : Option String) : List Row :=
  if truthy list_type && validListType (list_type.getD "") then
    (db.rows.filter (fun r => r.list_type == list_type.getD "")).mergeSort leCreated
  else
    db.rows.mergeSort leListCreated

inductive GetOneRes
  | notFound
  | ok (row : Row)
deriving Repr, DecidableEq

/-- Route `GET /api/usernames/:id`. -/
def getOneHandler (db : DB) (id : Nat) : GetOneRes :=
  match findById db.rows id with
  | none => .notFound
  | some r => .ok r

inductive PostRes
  | badRequest (error : String)
  | conflict (error : String)
  | created (row : Row)
deriving Repr, DecidableEq

/-- Route `POST /api/usernames`. -/
def postHandler (db : DB) (username list_type display_name notes : Option String)
    (now : Nat) : PostRes × DB :=
  if falsy username || falsy list_type then
    (.badRequest "Username and list_type are required", db)
  else if !validListType (list_type.getD "") then
    (.badRequest "list_type must be either following or followers", db)
  else
    let clean := cleanU (username.getD "")
    if clean == "" then (.badRequest "Invalid username", db)
    else if hasPair db.rows clean (list_type.getD "") then
      (.conflict "Username already exists in this list", db)
    else
      let row : Row :=
        ⟨db.nextId, clean, list_type.getD "", orNull display_name, orNull notes, now, now⟩
      (.created row, ⟨db.rows ++ [row], db.nextId + 1⟩)

inductive PutRes
  | notFound
  | badRequest (error : String)
  | serverError (error : String)
  | ok (row : Row)
deriving Repr, DecidableEq

/-- The username the PUT handler writes:
`username ? username.replace(/^@/, '').trim().toLowerCase() : existing.username`. -/
def mergedUsername (existing : Row) (username : Option String) : String :=
  if truthy username then cleanU (username.getD "") else existing.username

/-- The list type the PUT handler writes: `list_type || existing.list_type`. -/
def mergedListType (existing : Row) (list_type : Option String) : String :=
  if truthy list_type then list_type.getD "" else existing.list_type

/-- Route `PUT /api/usernames/:id`.  The `display_name`/`notes` fields distinguish
absent (`none`) from `null` (`some none`), matching `!== undefined`.
If the merged (username, list_type) collides with a different row, the
`UNIQUE(username, list_type)` constraint makes `db.run` throw and the
route's `catch` answers 500 with the table unchanged. -/
def putHandler (db : DB) (id : Nat) (username list_type : Option String)
    (display_name notes : Option (Option String)) (now : Nat) : PutRes × DB :=
  match findById db.rows id with
  | none => (.notFound, db)
  | some existing =>
    let clean := mergedUsername existing username
    let newLt := mergedListType existing list_type
    if truthy list_type && !validListType (list_type.getD "") then
      (.badRequest "list_type must be either following or followers", db)
    else if db.rows.any (fun r => r.id != id && r.username == clean && r.list_type == newLt) then
      (.serverError "Failed to update username", db)
    else
      let updated : Row :=
        ⟨existing.id, clean, newLt, display_name.getD existing.display_name,
         notes.getD existing.notes, existing.created_at, now⟩
      (.ok updated, ⟨db.rows.map (fun r => if r.id == id then updated else r), db.nextId⟩)

inductive DeleteRes
  | notFound
  | ok
deriving Repr, DecidableEq

/-- Route `DELETE /api/usernames/:id`. -/
def deleteHandler (db : DB) (id : Nat) : DeleteRes × DB :=
  match findById db.rows id with
  | none => (.notFound, db)
  | some _ => (.ok, ⟨db.rows.filter (fun r => r.id != id), db.nextId⟩)

inductive DeleteListRes
  | badRequest (error : String)
  | ok (changes : Nat)
deriving Repr, DecidableEq

/-- Route `DELETE /api/usernames/list/:list_type`; `changes` is
`db.getRowsModified()` after the `DELETE` statement. -/
def deleteListHandler (db : DB) (lt : String) : DeleteListRes × DB :=
  if !validListType lt then
    (.badRequest "list_type must be either following or followers", db)
  else
    (.ok (db.rows.countP (fun r => r.list_type == lt)),
     ⟨db.rows.filter (fun r => r.list_type != lt), db.nextId⟩)

/-- The loop body of `POST /api/usernames/bulk`: clean each name, skip empty
results, `INSERT OR IGNORE` the pair, count actual inserts. -/
def bulkInsert (lt : String) (now : Nat) : DB → List String → DB × Nat
  | db, [] => (db, 0)
  | db, u :: rest =>
    let clean := cleanU u
    if clean == "" then bulkInsert lt now db rest
    else if hasPair db.rows clean lt then bulkInsert lt now db rest
    else
      let row : Row := ⟨db.nextId, clean, lt, none, none, now, now⟩
      let res := bulkInsert lt now ⟨db.rows ++ [row], db.nextId + 1⟩ rest
      (res.1, res.2 + 1)

inductive BulkRes
  | badRequest (error : String)
  | ok (imported : Nat) (total : Nat)
deriving Repr, DecidableEq

/-- Route `POST /api/usernames/bulk`.  Here `usernames = none` models a body whose
`usernames` is not an array. -/
def bulkHandler (db : DB) (usernames : Option (List String)) (list_type : Option String)
    (now : Nat) : BulkRes × DB :=
  match usernames with
  | none => (.badRequest "usernames array and list_type are required", db)
  | some us =>
    if falsy list_type then
      (.badRequest "usernames array and list_type are required", db)
    else if !validListType (list_type.getD "") then
      (.badRequest "list_type must be either following or followers", db)
    else
      let res := bulkInsert (list_type.getD "") now db us
      (.ok res.2 us.length, res.1)

/-- One `LIKE` test of the search query against a nullable column
(`NULL LIKE p` is `NULL`, i.e. no match). -/
def fieldLike (q : String) : Option String → Bool
  | none => false
  | some s => likeM (patFor q) s.data

/-- The disjunction `username LIKE ? OR display_name LIKE ? OR notes LIKE ?`. -/
def rowMatches (q : String) (r : Row) : Bool :=
  fieldLike q (some r.username) || fieldLike q r.display_name || fieldLike q r.notes

inductive SearchRes
  | badRequest (error : String)
  | ok (rows : List Row)
deriving Repr, DecidableEq

/-- Route `GET /api/search`. -/
def searchHandler (db : DB) (q list_type : Option String) : SearchRes :=
  if falsy q then .badRequest "Search query is required"
  else if truthy list_type && validListType (list_type.getD "") then
    .ok (((db.rows.filter
      (fun r => rowMatches (q.getD "") r && r.list_type == list_type.getD "")).mergeSort
        leCreated))
  else
    .ok ((db.rows.filter (fun r => rowMatches (q.getD "") r)).mergeSort leListCreated)

/-- The row list carried by a search response. -/
def searchData : SearchRes → List Row
  | .badRequest _ => []
  | .ok rows => rows

/-- Route `GET /api/stats`: (following count, followers count). -/
def statsHandler (db : DB) : Nat × Nat :=
  (db.rows.countP (fun r => r.list_type == "following"),
   db.rows.countP (fun r => r.list_type == "followers"))

/-! ## The five mutating operations as one step function -/
inductive Op
  | create (username list_type display_name notes : Option String) (now : Nat)
  | update (id : Nat) (username list_type : Option String)
      (display_name notes : Option (Option String)) (now : Nat)
  | remove (id : Nat)
  | removeList (lt : String)
  | bulkImport (usernames : Option (List String)) (list_type : Option String) (now : Nat)

/-- The database state after one mutating request. -/
def step (db : DB) : Op → DB
  | .create u lt dn nt now => (postHandler db u lt dn nt now).2
  | .update id u lt dn nt now => (putHandler db id u lt dn nt now).2
  | .remove id => (deleteHandler db id).2
  | .removeList lt => (deleteListHandler db lt).2
  | .bulkImport us lt now => (bulkHandler db us lt now).2

/-! ## Persistence events

`run()` executes one statement and then calls `saveDatabase()`
(`fs.writeFileSync`); the bulk route calls `db.run` in a loop and
`saveDatabase()` once after it.  Each handler's persistence behaviour is
recorded as a sequence of events ending in the response. -/
inductive Ev
  | mutate
  | flush
  | respond
deriving Repr, DecidableEq

def postTrace (db : DB) (username list_type display_name notes : Option String)
    (now : Nat) : List Ev :=
  match (postHandler db username list_type display_name notes now).1 with
  | .created _ => [.mutate, .flush, .respond]
  | _ => [.respond]

def putTrace (db : DB) (id : Nat) (username list_type : Option String)
    (display_name notes : Option (Option String)) (now : Nat) : List Ev :=
  match (putHandler db id username list_type display_name notes now).1 with
  | .ok _ => [.mutate, .flush, .respond]
  | _ => [.respond]

def deleteTrace (db : DB) (id : Nat) : List Ev :=
  match (deleteHandler db id).1 with
  | .ok => [.mutate, .flush, .respond]
  | _ => [.respond]

def deleteListTrace (db : DB) (lt : String) : List Ev :=
  match (deleteListHandler db lt).1 with
  | .ok _ => [.mutate, .flush, .respond]
  | _ => [.respond]

def bulkTrace (db : DB) (usernames : Option (List String)) (list_type : Option String)
    (now : Nat) : List Ev :=
  match (bulkHandler db usernames list_type now).1 with
  | .badRequest _ => [.respond]
  | .ok imported _ => List.replicate imported .mutate ++ [.flush, .respond]

/-- Each mutation is flushed before any further mutation or the response:
the boolean argument tracks a pending unflushed mutation. -/
def noBatch : List Ev → Bool → Bool
  | [], pending => !pending
  | .mutate :: r, pending => !pending && noBatch r true
  | .flush :: r, _ => noBatch r false
  | .respond :: r, pending => !pending && noBatch r pending

/-- Weaker: no response is sent while a mutation is unflushed (batched
flushing allowed). -/
def flushedBeforeRespond : List Ev → Bool → Bool
  | [], _ => true
  | .mutate :: r, _ => flushedBeforeRespond r true
  | .flush :: r, _ => flushedBeforeRespond r false
  | .respond :: r, pending => !pending && flushedBeforeRespond r pending

/-! ## JSON response shapes -/
inductive Json
  | null
  | bool (b : Bool)
  | num (n : Nat)
  | str (s : String)
  | arr (elems : List Json)
  | obj (fields : List (String × Json))

def getField : List (String × Json) → String → Option Json
  | [], _ => none
  | (k, v) :: rest, key => if k == key then some v else getField rest key

def optJson : Option String → Json
  | none => .null
  | some s => .str s

/-- A row as serialized by `SELECT *`. -/
def rowJson (r : Row) : Json :=
  .obj [("id", .num r.id), ("username", .str r.username), ("list_type", .str r.list_type),
        ("display_name", optJson r.display_name), ("notes", optJson r.notes),
        ("created_at", .num r.created_at), ("updated_at", .num r.updated_at)]

def errJson (e : String) : Json := .obj [("success", .bool false), ("error", .str e)]

def dataJson (d : Json) : Json := .obj [("success", .bool true), ("data", d)]

def listJson (rows : List Row) : Json := dataJson (.arr (rows.map rowJson))

def getOneJson : GetOneRes → Json
  | .notFound => errJson "Username not found"
  | .ok r => dataJson (rowJson r)

def postJson : PostRes → Json
  | .badRequest e => errJson e
  | .conflict e => errJson e
  | .created r => dataJson (rowJson r)

def putJson : PutRes → Json
  | .notFound => errJson "Username not found"
  | .badRequest e => errJson e
  | .serverError e => errJson e
  | .ok r => dataJson (rowJson r)

def deleteJson : DeleteRes → Json
  | .notFound => errJson "Username not found"
  | .ok => .obj [("success", .bool true), ("message", .str "Username deleted successfully")]

def deleteListJson (lt : String) : DeleteListRes → Json
  | .badRequest e => errJson e
  | .ok n => .obj [("success", .bool true),
      ("message", .str ("Deleted " ++ toString n ++ " usernames from " ++ lt ++ " list"))]

def bulkJson : BulkRes → Json
  | .badRequest e => errJson e
  | .ok imported total => .obj [("success", .bool true),
      ("message", .str ("Imported " ++ toString imported ++ " usernames")),
      ("imported", .num imported), ("total", .num total)]

def searchJson : SearchRes → Json
  | .badRequest e => errJson e
  | .ok rows => dataJson (.arr (rows.map rowJson))

def statsJson (p : Nat × Nat) : Json :=
  dataJson (.obj [("following", .num p.1), ("followers", .num p.2), ("total", .num (p.1 + p.2))])

/-- Route `GET /api/health` replies an object with `status` and `timestamp` only. -/
def healthJson (ts : String) : Json :=
  .obj [("status", .str "ok"), ("timestamp", .str ts)]

/-- The envelope of the claim: a `success` boolean with `data` on success and
`error` on failure. -/
def isEnvelope (j : Json) : Bool :=
  match j with
  | .obj fs =>
    match getField fs "success" with
    | some (.bool true) => (getField fs "data").isSome
    | some (.bool false) => (getField fs "error").isSome
    | _ => false
  | _ => false

/-- The envelope the handlers actually produce: a `success` boolean, `error`
on failure, and `data` or `message` on success. -/
def isEnvelopeRelaxed (j : Json) : Bool :=
  match j with
  | .obj fs =>
    match getField fs "success" with
    | some (.bool true) => (getField fs "data").isSome || (getField fs "message").isSome
    | some (.bool false) => (getField fs "error").isSome
    | _ => false
  | _ => false

/-! ## Invariants -/
/-- Two rows differ on the `UNIQUE(username, list_type)` key. -/
def pairDistinct (a b : Row) : Prop := a.username ≠ b.username ∨ a.list_type ≠ b.list_type

/-- No two rows share a (username, list_type) pair. -/
def distinctPairs (rows : List Row) : Prop := rows.Pairwise pairDistinct

/-- The full data-model invariant: unique pairs, unique ids, ids below the
`AUTOINCREMENT` counter. -/
def Inv (db : DB) : Prop :=
  distinctPairs db.rows ∧ db.rows.Pairwise (fun a b => a.id ≠ b.id) ∧
    ∀ r ∈ db.rows, r.id < db.nextId

/-- A stored username is lowercase, has no surrounding whitespace, and the
list type is one of the two valid values. -/
def wfRow (r : Row) : Prop :=
  lowerC r.username.data = r.username.data ∧ edgeClean r.username.data = true ∧
    validListType r.list_type = true

def WfDB (db : DB) : Prop := ∀ r ∈ db.rows, wfRow r

instance (a b : Row) : Decidable (pairDistinct a b) := by
  unfold pairDistinct
  infer_instance

instance (rows : List Row) : Decidable (distinctPairs rows) := by
  unfold distinctPairs
  infer_instance

instance (db : DB) : Decidable (Inv db) := by
  unfold Inv
  infer_instance

instance (r : Row) : Decidable (wfRow r) := by
  unfold wfRow
  infer_instance

instance (db : DB) : Decidable (WfDB db) := by
  unfold WfDB
  infer_instance

/-- Spec-side predicate, from the claim's wording: the query occurs as a
substring of the field, compared case-insensitively; a NULL field matches
nothing. -/
def ciOccurs (q : String) : Option String → Prop
  | none => False
  | some s => lowerC q.data <:+: lowerC s.data

instance (q : String) (f : Option String) : Decidable (ciOccurs q f) :=
  match f with
  | none => isFalse (fun h => h)
  | some _ => List.decidableInfix _ _

/-- The row the POST handler inserts on success. -/
def postedRow (db : DB) (username list_type display_name notes : Option String)
    (now : Nat) : Row :=
  ⟨db.nextId, cleanU (username.getD ""), list_type.getD "",
   orNull display_name, orNull notes, now, now⟩

/-- The record the PUT handler writes over row `id` on success. -/
def updatedRow (existing : Row) (username list_type : Option String)
    (display_name notes : Option (Option String)) (now : Nat) : Row :=
  ⟨existing.id, mergedUsername existing username, mergedListType existing list_type,
   display_name.getD existing.display_name, notes.getD existing.notes,
   existing.created_at, now⟩

/-! ## HTTP status codes of the responses -/
def postStatus : PostRes → Nat
  | .badRequest _ => 400
  | .conflict _ => 409
  | .created _ => 201

def putStatus : PutRes → Nat
  | .notFound => 404
  | .badRequest _ => 400
  | .serverError _ => 500
  | .ok _ => 200

def deleteListStatus : DeleteListRes → Nat
  | .badRequest _ => 400
  | .ok _ => 200

/-! ## Concrete fixtures used by witnesses and counterexamples -/
def rowFoo : Row := ⟨1, "foo", "following", none, none, 0, 0⟩

def dbFoo : DB := ⟨[rowFoo], 2⟩

def dbAlice : DB := ⟨[⟨1, "alice", "following", none, none, 0, 0⟩], 2⟩

def dbAB : DB :=
  ⟨[⟨1, "alice", "following", none, none, 0, 0⟩,
    ⟨2, "bob", "following", none, none, 1, 1⟩], 3⟩

theorem toNat_ofNat_valid (n : Nat) (h : n.isValidChar) : (Char.ofNat n).toNat = n := by
  rw [Char.ofNat, dif_pos h]
  rfl

theorem toLower_toNat_of_upper (c : Char) (h1 : 65 ≤ c.toNat) (h2 : c.toNat ≤ 90) :
    (Char.toLower c).toNat = c.toNat + 32 := by
  have hv : Nat.isValidChar (c.toNat + 32) := Or.inl (by omega)
  simp only [Char.toLower]
  rw [if_pos ⟨h1, h2⟩]
  exact toNat_ofNat_valid _ hv

theorem toLower_eq_self (c : Char) (h : ¬ (65 ≤ c.toNat ∧ c.toNat ≤ 90)) :
    Char.toLower c = c := by
  simp only [Char.toLower]
  rw [if_neg h]

/-- Lowercasing is idempotent on the modelled range. -/
theorem toLower_toLower (c : Char) : Char.toLower (Char.toLower c) = Char.toLower c := by
  by_cases h : 65 ≤ c.toNat ∧ c.toNat ≤ 90
  · have ht := toLower_toNat_of_upper c h.1 h.2
    have : ¬ (65 ≤ (Char.toLower c).toNat ∧ (Char.toLower c).toNat ≤ 90) := by omega
    exact toLower_eq_self _ this
  · rw [toLower_eq_self c h, toLower_eq_self c h]

/-- Lowercasing neither creates nor destroys whitespace. -/
theorem isWs_toLower (c : Char) : isWs (Char.toLower c) = isWs c := by
  by_cases h : 65 ≤ c.toNat ∧ c.toNat ≤ 90
  · have ht := toLower_toNat_of_upper c h.1 h.2
    have e1 : isWs (Char.toLower c) = false := by
      simp only [isWs, ht, Bool.or_eq_false_iff, beq_eq_false_iff_ne, ne_eq]
      omega
    have e2 : isWs c = false := by
      simp only [isWs, Bool.or_eq_false_iff, beq_eq_false_iff_ne, ne_eq]
      omega
    rw [e1, e2]
  · rw [toLower_eq_self c h]

theorem lowerC_idem (l : List Char) : lowerC (lowerC l) = lowerC l := by
  simp only [lowerC, List.map_map]
  exact List.map_congr_left (fun c _ => toLower_toLower c)

/-- The head of `dropWhile p` does not satisfy `p`. -/
theorem head_dropWhile_false {p : Char → Bool} :
    ∀ (l : List Char) (c : Char), (l.dropWhile p).head? = some c → p c = false := by
  intro l
  induction l with
  | nil => intro c h; simp [List.dropWhile] at h
  | cons a t ih =>
    intro c h
    by_cases hp : p a
    · rw [List.dropWhile_cons_of_pos hp] at h
      exact ih c h
    · rw [List.dropWhile_cons_of_neg hp] at h
      simp at h
      subst h
      exact Bool.eq_false_iff.mpr hp

theorem getLast_of_suffix {l m : List Char} (h : l <:+ m) (hne : l ≠ []) :
    l.getLast? = m.getLast? := by
  obtain ⟨t, rfl⟩ := h
  rw [List.getLast?_append]
  cases hl : l.getLast? with
  | none => exact absurd (List.getLast?_eq_none_iff.mp hl) hne
  | some c => rfl

theorem edgeClean_trimC (l : List Char) : edgeClean (trimC l) = true := by
  unfold trimC edgeClean
  have hlast : ∀ c, ((((l.dropWhile isWs).reverse.dropWhile isWs)).reverse).getLast? = some c →
      isWs c = false := by
    intro c h
    rw [List.getLast?_reverse] at h
    exact head_dropWhile_false _ c h
  have hhead : ∀ c, ((((l.dropWhile isWs).reverse.dropWhile isWs)).reverse).head? = some c →
      isWs c = false := by
    intro c h
    rw [List.head?_reverse] at h
    have hsuf : ((l.dropWhile isWs).reverse.dropWhile isWs) <:+ (l.dropWhile isWs).reverse :=
      List.dropWhile_suffix _
    have hne : ((l.dropWhile isWs).reverse.dropWhile isWs) ≠ [] := by
      intro he
      rw [he] at h
      simp at h
    rw [getLast_of_suffix hsuf hne, List.getLast?_reverse] at h
    exact head_dropWhile_false _ c h
  cases hh : ((((l.dropWhile isWs).reverse.dropWhile isWs)).reverse).head? with
  | none => cases hl : ((((l.dropWhile isWs).reverse.dropWhile isWs)).reverse).getLast? with
    | none => rfl
    | some c => simp [hlast c hl]
  | some c =>
    cases hl : ((((l.dropWhile isWs).reverse.dropWhile isWs)).reverse).getLast? with
    | none => simp [hhead c hh]
    | some d => simp [hhead c hh, hlast d hl]

theorem edgeClean_lowerC (l : List Char) : edgeClean (lowerC l) = edgeClean l := by
  unfold edgeClean lowerC
  rw [List.head?_map, List.getLast?_map]
  cases l.head? <;> cases l.getLast? <;> simp [isWs_toLower]

/-- The `cleanL` output is lowercase. -/
theorem cleanL_lower (l : List Char) : lowerC (cleanL l) = cleanL l := by
  unfold cleanL
  exact lowerC_idem _

/-- The `cleanL` output has no surrounding whitespace. -/
theorem cleanL_edgeClean (l : List Char) : edgeClean (cleanL l) = true := by
  unfold cleanL
  rw [edgeClean_lowerC]
  exact edgeClean_trimC _

/-! ## Characterisation of `LIKE '%q%'` for wildcard-free queries -/
theorem char_eq_of_toNat_eq {a b : Char} (h : a.toNat = b.toNat) : a = b := by
  apply Char.eq_of_val_eq
  apply UInt32.ext
  exact h

theorem likeM_percent_iff (p s : List Char) :
    likeM ('%' :: p) s = true ↔ ∃ s1 s2, s = s1 ++ s2 ∧ likeM p s2 = true := by
  show (if ('%' : Char) = '%' then (s.tails).any (fun s2 => likeM p s2) else _) = true ↔ _
  rw [if_pos rfl, List.any_eq_true]
  constructor
  · rintro ⟨s2, hmem, h⟩
    rw [List.mem_tails] at hmem
    obtain ⟨s1, rfl⟩ := hmem
    exact ⟨s1, s2, rfl, h⟩
  · rintro ⟨s1, s2, rfl, h⟩
    exact ⟨s2, (List.mem_tails _ _).mpr ⟨s1, rfl⟩, h⟩

theorem likeM_percent_only (s : List Char) : likeM ['%'] s = true :=
  (likeM_percent_iff [] s).mpr ⟨s, [], by simp, rfl⟩

theorem likeM_plain_append (q p : List Char) (hq : ∀ c ∈ q, c ≠ '%' ∧ c ≠ '_') :
    ∀ s : List Char, (likeM (q ++ p) s = true ↔
      ∃ s1 s2, s = s1 ++ s2 ∧ lowerC s1 = lowerC q ∧ likeM p s2 = true) := by
  induction q with
  | nil =>
    intro s
    simp only [List.nil_append]
    constructor
    · intro h
      exact ⟨[], s, rfl, rfl, h⟩
    · rintro ⟨s1, s2, rfl, h1, h2⟩
      have hs1 : s1 = [] := by simpa [lowerC] using h1
      subst hs1
      simpa using h2
  | cons c q ih =>
    intro s
    have hc := hq c (List.mem_cons_self c q)
    have hq2 : ∀ d ∈ q, d ≠ '%' ∧ d ≠ '_' := fun d hd => hq d (List.mem_cons_of_mem c hd)
    cases s with
    | nil =>
      show (if c = '%' then _ else false) = true ↔ _
      rw [if_neg hc.1]
      constructor
      · intro h
        exact absurd h (by simp)
      · rintro ⟨s1, s2, hs, h1, h2⟩
        have : s1 = [] := (List.append_eq_nil.mp hs.symm).1
        subst this
        simp [lowerC] at h1
    | cons d s2 =>
      show (if c = '%' then _
        else (decide (c = '_') || (Char.toLower c == Char.toLower d)) &&
          likeM (q ++ p) s2) = true ↔ _
      rw [if_neg hc.1]
      rw [decide_eq_false hc.2, Bool.false_or, Bool.and_eq_true, beq_iff_eq, ih hq2 s2]
      constructor
      · rintro ⟨hcd, t1, t2, rfl, h1, h2⟩
        refine ⟨d :: t1, t2, rfl, ?_, h2⟩
        simp only [lowerC, List.map_cons] at h1 ⊢
        rw [h1, hcd]
      · rintro ⟨s1, t2, hs, h1, h2⟩
        cases s1 with
        | nil => simp [lowerC] at h1
        | cons e t1 =>
          simp only [List.cons_append, List.cons.injEq] at hs
          obtain ⟨rfl, rfl⟩ := hs
          simp only [lowerC, List.map_cons, List.cons.injEq] at h1
          exact ⟨h1.1.symm ▸ rfl, t1, t2, rfl, h1.2, h2⟩

/-- For a query without `%` and `_`, `LIKE '%q%'` is exactly
case-insensitive substring occurrence. -/
theorem likeM_patFor_iff (q : String) (s : List Char)
    (hq : ∀ c ∈ q.data, c ≠ '%' ∧ c ≠ '_') :
    likeM (patFor q) s = true ↔ lowerC q.data <:+: lowerC s := by
  unfold patFor
  rw [likeM_percent_iff]
  constructor
  · rintro ⟨s1, s23, rfl, h⟩
    rw [likeM_plain_append q.data ['%'] hq s23] at h
    obtain ⟨a, b, rfl, ha, _⟩ := h
    refine ⟨lowerC s1, lowerC b, ?_⟩
    rw [← ha]
    simp [lowerC, List.append_assoc]
  · rintro ⟨u, v, huv⟩
    have : List.map Char.toLower s = u ++ (lowerC q.data ++ v) := by
      simpa [lowerC, List.append_assoc] using huv.symm
    rw [List.map_eq_append_iff] at this
    obtain ⟨s1, s23, rfl, hu, hrest⟩ := this
    rw [List.map_eq_append_iff] at hrest
    obtain ⟨a, b, rfl, hmid, hb⟩ := hrest
    refine ⟨s1, a ++ b, rfl, ?_⟩
    rw [likeM_plain_append q.data ['%'] hq (a ++ b)]
    exact ⟨a, b, rfl, hmid, likeM_percent_only b⟩

/-! ## The `ORDER BY` comparators are total preorders -/
theorem ltChars_trans :
    ∀ x y z : List Char, ltChars x y = true → ltChars y z = true → ltChars x z = true := by
  intro x
  induction x with
  | nil =>
    intro y z hxy hyz
    cases y with
    | nil => exact hyz
    | cons b ys =>
      cases z with
      | nil => simp [ltChars] at hyz
      | cons c zs => rfl
  | cons a xs ih =>
    intro y z hxy hyz
    cases y with
    | nil => simp [ltChars] at hxy
    | cons b ys =>
      cases z with
      | nil => simp [ltChars] at hyz
      | cons c zs =>
        simp only [ltChars] at hxy hyz ⊢
        by_cases hab : a.toNat < b.toNat
        · by_cases hbc : b.toNat < c.toNat
          · rw [if_pos (by omega)]
          · rw [if_neg hbc] at hyz
            by_cases hcb : c.toNat < b.toNat
            · rw [if_pos hcb] at hyz
              exact absurd hyz (by simp)
            · rw [if_pos (by omega)]
        · rw [if_neg hab] at hxy
          by_cases hba : b.toNat < a.toNat
          · rw [if_pos hba] at hxy
            exact absurd hxy (by simp)
          · rw [if_neg hba] at hxy
            have hab2 : a.toNat = b.toNat := by omega
            by_cases hbc : b.toNat < c.toNat
            · rw [if_pos (by omega)]
            · rw [if_neg hbc] at hyz
              by_cases hcb : c.toNat < b.toNat
              · rw [if_pos hcb] at hyz
                exact absurd hyz (by simp)
              · rw [if_neg hcb] at hyz
                rw [if_neg (by omega), if_neg (by omega)]
                exact ih ys zs hxy hyz

theorem ltChars_connex :
    ∀ x y : List Char, ltChars x y = false → ltChars y x = false → x = y := by
  intro x
  induction x with
  | nil =>
    intro y hxy _
    cases y with
    | nil => rfl
    | cons b ys => simp [ltChars] at hxy
  | cons a xs ih =>
    intro y hxy hyx
    cases y with
    | nil => simp [ltChars] at hyx
    | cons b ys =>
      simp only [ltChars] at hxy hyx
      by_cases hab : a.toNat < b.toNat
      · rw [if_pos hab] at hxy
        exact absurd hxy (by simp)
      · rw [if_neg hab] at hxy
        by_cases hba : b.toNat < a.toNat
        · rw [if_pos hba] at hyx
          exact absurd hyx (by simp)
        · rw [if_neg hba] at hxy
          rw [if_neg (by omega), if_neg (by omega)] at hyx
          have hab2 : a = b := char_eq_of_toNat_eq (by omega)
          rw [hab2, ih ys hxy hyx]

theorem leListCreated_trans (a b c : Row) (hab : leListCreated a b = true)
    (hbc : leListCreated b c = true) : leListCreated a c = true := by
  simp only [leListCreated, Bool.or_eq_true, Bool.and_eq_true, beq_iff_eq,
    decide_eq_true_eq] at hab hbc ⊢
  rcases hab with hab | ⟨hab, hab2⟩
  · rcases hbc with hbc | ⟨hbc, _⟩
    · exact Or.inl (ltChars_trans _ _ _ hab hbc)
    · exact Or.inl (hbc ▸ hab)
  · rcases hbc with hbc | ⟨hbc, hbc2⟩
    · exact Or.inl (hab ▸ hbc)
    · exact Or.inr ⟨hab.trans hbc, by omega⟩

theorem leListCreated_total (a b : Row) :
    (leListCreated a b || leListCreated b a) = true := by
  simp only [leListCreated, Bool.or_eq_true, Bool.and_eq_true, beq_iff_eq,
    decide_eq_true_eq]
  by_cases hab : ltChars a.list_type.data b.list_type.data
  · exact Or.inl (Or.inl hab)
  · by_cases hba : ltChars b.list_type.data a.list_type.data
    · exact Or.inr (Or.inl hba)
    · have he : a.list_type = b.list_type := String.ext
        (ltChars_connex _ _ (Bool.eq_false_iff.mpr hab) (Bool.eq_false_iff.mpr hba))
      by_cases hcr : b.created_at ≤ a.created_at
      · exact Or.inl (Or.inr ⟨he, hcr⟩)
      · exact Or.inr (Or.inr ⟨he.symm, by omega⟩)

theorem leCreated_trans (a b c : Row) (hab : leCreated a b = true)
    (hbc : leCreated b c = true) : leCreated a c = true := by
  simp only [leCreated, decide_eq_true_eq] at hab hbc ⊢
  omega

theorem leCreated_total (a b : Row) : (leCreated a b || leCreated b a) = true := by
  simp only [leCreated, Bool.or_eq_true, decide_eq_true_eq]
  omega

/-! ## State characterisation of the mutating handlers -/
theorem hasPair_false_forall {rows : List Row} {u lt : String}
    (h : hasPair rows u lt = false) : ∀ r ∈ rows, r.username ≠ u ∨ r.list_type ≠ lt := by
  intro r hr
  simp only [hasPair, List.any_eq_false, Bool.and_eq_true, beq_iff_eq, not_and] at h
  have hru := h r hr
  by_cases hu : r.username = u
  · exact Or.inr (hru hu)
  · exact Or.inl hu

/-- A POST either rejects the request, leaving the table alone, or appends
one fresh, validated, non-duplicated row. -/
theorem postHandler_state (db : DB) (u lt dn nt : Option String) (now : Nat) :
    ((postHandler db u lt dn nt now).2 = db ∧
     ∀ r, (postHandler db u lt dn nt now).1 ≠ .created r) ∨
    (validListType (lt.getD "") = true ∧ cleanU (u.getD "") ≠ "" ∧
     hasPair db.rows (cleanU (u.getD "")) (lt.getD "") = false ∧
     (postHandler db u lt dn nt now) =
       (.created (postedRow db u lt dn nt now),
        ⟨db.rows ++ [postedRow db u lt dn nt now], db.nextId + 1⟩)) := by
  unfold postHandler postedRow
  by_cases h1 : (falsy u || falsy lt) = true
  · simp [h1]
  · by_cases h2 : validListType (lt.getD "") = true
    · by_cases h3 : (cleanU (u.getD "") == "") = true
      · simp [h1, h2, h3]
      · by_cases h4 : hasPair db.rows (cleanU (u.getD "")) (lt.getD "") = true
        · simp [h1, h2, h3, h4]
        · right
          refine ⟨h2, by simpa using h3, by simpa using h4, ?_⟩
          simp [h1, h2, h3, h4]
    · simp [h1, h2]

/-- A PUT either leaves the table alone or overwrites the matched row with
the merged record, and only when no other row holds the merged pair. -/
theorem putHandler_state (db : DB) (id : Nat) (u lt : Option String)
    (dn nt : Option (Option String)) (now : Nat) :
    (putHandler db id u lt dn nt now).2 = db ∨
    (∃ existing, findById db.rows id = some existing ∧
     (db.rows.any (fun r => r.id != id &&
        r.username == mergedUsername existing u &&
        r.list_type == mergedListType existing lt)) = false ∧
     (truthy lt = true → validListType (lt.getD "") = true) ∧
     (putHandler db id u lt dn nt now) =
       (.ok (updatedRow existing u lt dn nt now),
        ⟨db.rows.map (fun r => if r.id == id then updatedRow existing u lt dn nt now else r),
         db.nextId⟩)) := by
  unfold putHandler updatedRow
  cases hfind : findById db.rows id with
  | none => simp
  | some existing =>
    by_cases h1 : (truthy lt && !validListType (lt.getD "")) = true
    · simp [h1]
    · by_cases h2 : (db.rows.any (fun r => r.id != id &&
          r.username == mergedUsername existing u &&
          r.list_type == mergedListType existing lt)) = true
      · simp [h1, h2]
      · right
        refine ⟨existing, rfl, by simpa using h2, ?_, ?_⟩
        · intro ht
          rcases Bool.and_eq_false_iff.mp (Bool.eq_false_iff.mpr h1) with hf | hf
          · exact absurd ht (by simp [hf])
          · simpa using hf
        · simp [h1, h2]

/-- A DELETE-by-id either 404s on a missing row or filters that id out. -/
theorem deleteHandler_state (db : DB) (id : Nat) :
    (deleteHandler db id).2 = db ∨
    (deleteHandler db id).2 = ⟨db.rows.filter (fun r => r.id != id), db.nextId⟩ := by
  unfold deleteHandler
  cases findById db.rows id with
  | none => exact Or.inl rfl
  | some r => exact Or.inr rfl

/-- A DELETE-by-list either 400s or filters the list type out. -/
theorem deleteListHandler_state (db : DB) (lt : String) :
    (deleteListHandler db lt).2 = db ∨
    (deleteListHandler db lt).2 = ⟨db.rows.filter (fun r => r.list_type != lt), db.nextId⟩ := by
  unfold deleteListHandler
  by_cases h : validListType lt = true
  · simp [h]
  · simp [h]

/-! ## Preservation of the uniqueness invariant -/
theorem inv_insert (db : DB) (u lt : String) (dn nt : Option String) (now : Nat)
    (h : Inv db) (hp : hasPair db.rows u lt = false) :
    Inv ⟨db.rows ++ [⟨db.nextId, u, lt, dn, nt, now, now⟩], db.nextId + 1⟩ := by
  obtain ⟨h1, h2, h3⟩ := h
  refine ⟨?_, ?_, ?_⟩
  · rw [distinctPairs, List.pairwise_append]
    refine ⟨h1, List.pairwise_singleton _ _, ?_⟩
    intro a ha b hb
    simp only [List.mem_singleton] at hb
    subst hb
    exact hasPair_false_forall hp a ha
  · rw [List.pairwise_append]
    refine ⟨h2, List.pairwise_singleton _ _, ?_⟩
    intro a ha b hb
    simp only [List.mem_singleton] at hb
    subst hb
    have := h3 a ha
    show a.id ≠ db.nextId
    omega
  · intro r hr
    rcases List.mem_append.mp hr with hr | hr
    · have := h3 r hr
      show r.id < db.nextId + 1
      omega
    · simp only [List.mem_singleton] at hr
      subst hr
      show db.nextId < db.nextId + 1
      omega

theorem inv_create (db : DB) (u lt dn nt : Option String) (now : Nat) (h : Inv db) :
    Inv (postHandler db u lt dn nt now).2 := by
  rcases postHandler_state db u lt dn nt now with ⟨hs, _⟩ | ⟨_, _, hp, hs⟩
  · rw [hs]; exact h
  · have : (postHandler db u lt dn nt now).2 =
        ⟨db.rows ++ [postedRow db u lt dn nt now], db.nextId + 1⟩ := by rw [hs]
    rw [this]
    exact inv_insert db _ _ _ _ now h hp

theorem findById_id {rows : List Row} {id : Nat} {r : Row}
    (h : findById rows id = some r) : r.id = id ∧ r ∈ rows := by
  have h1 := List.find?_some h
  have h2 := List.mem_of_find?_eq_some h
  simp only [beq_iff_eq] at h1
  exact ⟨h1, h2⟩

theorem inv_update (db : DB) (id : Nat) (u lt : Option String)
    (dn nt : Option (Option String)) (now : Nat) (h : Inv db) :
    Inv (putHandler db id u lt dn nt now).2 := by
  rcases putHandler_state db id u lt dn nt now with hs | ⟨existing, hfind, hother, _, hs⟩
  · rw [hs]; exact h
  · obtain ⟨h1, h2, h3⟩ := h
    obtain ⟨hexid, _⟩ := findById_id hfind
    have hstate : (putHandler db id u lt dn nt now).2 =
        ⟨db.rows.map (fun r => if r.id == id then updatedRow existing u lt dn nt now else r),
         db.nextId⟩ := by rw [hs]
    rw [hstate]
    set f := fun r => if r.id == id then updatedRow existing u lt dn nt now else r with hf
    have hfa : ∀ r : Row, r.id = id → f r = updatedRow existing u lt dn nt now := by
      intro r hrid
      simp only [hf]
      rw [if_pos (by simpa using hrid)]
    have hfb : ∀ r : Row, r.id ≠ id → f r = r := by
      intro r hrid
      simp only [hf]
      rw [if_neg (by simpa using hrid)]
    have hid_f : ∀ r : Row, (f r).id = r.id := by
      intro r
      by_cases hr : r.id = id
      · rw [hfa r hr]
        show existing.id = r.id
        rw [hexid, hr]
      · rw [hfb r hr]
    have hother2 : ∀ r ∈ db.rows, r.id ≠ id →
        ¬ (r.username = mergedUsername existing u ∧ r.list_type = mergedListType existing lt) := by
      intro r hr hrid hcon
      have hp : (r.id != id && (r.username == mergedUsername existing u) &&
          (r.list_type == mergedListType existing lt)) = true := by
        simp only [Bool.and_eq_true, bne_iff_ne, ne_eq, beq_iff_eq]
        exact ⟨⟨hrid, hcon.1⟩, hcon.2⟩
      have hno : ¬ ((db.rows.any (fun r => r.id != id &&
          r.username == mergedUsername existing u &&
          r.list_type == mergedListType existing lt)) = true) := by
        rw [hother]
        simp
      exact hno (List.any_eq_true.mpr ⟨r, hr, hp⟩)
    refine ⟨?_, ?_, ?_⟩
    · rw [distinctPairs, List.pairwise_map]
      refine List.Pairwise.imp_of_mem ?_ (h1.and h2)
      intro a b ha hb hab
      obtain ⟨habp, habid⟩ := hab
      by_cases haid : a.id = id
      · have hbid : b.id ≠ id := fun hb2 => habid (by rw [haid, hb2])
        rw [hfa a haid, hfb b hbid]
        change mergedUsername existing u ≠ b.username ∨ mergedListType existing lt ≠ b.list_type
        have hnb := hother2 b hb hbid
        by_cases hu2 : b.username = mergedUsername existing u
        · exact Or.inr (fun heq => hnb ⟨hu2, heq.symm⟩)
        · exact Or.inl (fun heq => hu2 heq.symm)
      · by_cases hbid : b.id = id
        · rw [hfb a haid, hfa b hbid]
          change a.username ≠ mergedUsername existing u ∨ a.list_type ≠ mergedListType existing lt
          have hna := hother2 a ha haid
          by_cases hu2 : a.username = mergedUsername existing u
          · exact Or.inr (fun heq => hna ⟨hu2, heq⟩)
          · exact Or.inl hu2
        · rw [hfb a haid, hfb b hbid]
          exact habp
    · rw [List.pairwise_map]
      refine List.Pairwise.imp_of_mem ?_ h2
      intro a b _ _ hab
      rw [hid_f a, hid_f b]
      exact hab
    · intro r hr
      rw [List.mem_map] at hr
      obtain ⟨a, ha, rfl⟩ := hr
      rw [hid_f a]
      exact h3 a ha

theorem inv_filter (db : DB) (p : Row → Bool) (h : Inv db) :
    Inv ⟨db.rows.filter p, db.nextId⟩ := by
  obtain ⟨h1, h2, h3⟩ := h
  exact ⟨h1.filter p, h2.filter p, fun r hr => h3 r (List.mem_of_mem_filter hr)⟩

theorem inv_bulkInsert (lt : String) (now : Nat) :
    ∀ (us : List String) (db : DB), Inv db → Inv (bulkInsert lt now db us).1 := by
  intro us
  induction us with
  | nil => intro db h; exact h
  | cons u rest ih =>
    intro db h
    show Inv (bulkInsert lt now db (u :: rest)).1
    unfold bulkInsert
    by_cases h1 : (cleanU u == "") = true
    · rw [if_pos h1]
      exact ih db h
    · rw [if_neg h1]
      by_cases h2 : hasPair db.rows (cleanU u) lt = true
      · rw [if_pos h2]
        exact ih db h
      · rw [if_neg h2]
        exact ih _ (inv_insert db (cleanU u) lt none none now h (Bool.eq_false_iff.mpr h2))

theorem inv_step (db : DB) (op : Op) (h : Inv db) : Inv (step db op) := by
  cases op with
  | create u lt dn nt now => exact inv_create db u lt dn nt now h
  | update id u lt dn nt now => exact inv_update db id u lt dn nt now h
  | remove id =>
    show Inv (deleteHandler db id).2
    rcases deleteHandler_state db id with hs | hs
    · rw [hs]; exact h
    · rw [hs]; exact inv_filter db _ h
  | removeList lt =>
    show Inv (deleteListHandler db lt).2
    rcases deleteListHandler_state db lt with hs | hs
    · rw [hs]; exact h
    · rw [hs]; exact inv_filter db _ h
  | bulkImport us lt now =>
    show Inv (bulkHandler db us lt now).2
    cases us with
    | none =>
      simp only [bulkHandler]
      exact h
    | some us2 =>
      simp only [bulkHandler]
      by_cases h1 : falsy lt = true
      · rw [if_pos h1]
        exact h
      · rw [if_neg h1]
        by_cases h2 : validListType (lt.getD "") = true
        · rw [if_neg (show ¬ ((!validListType (lt.getD "")) = true) by rw [h2]; simp)]
          exact inv_bulkInsert (lt.getD "") now us2 db h
        · have hv : validListType (lt.getD "") = false := Bool.eq_false_iff.mpr h2
          rw [if_pos (show (!validListType (lt.getD "")) = true by rw [hv]; rfl)]
          exact h

/-! ## Preservation of username normalisation and list-type validity -/
theorem wf_insert (db : DB) (u lt : String) (dn nt : Option String) (now : Nat)
    (h : WfDB db) (hu : ∃ s : String, u = cleanU s) (hlt : validListType lt = true) :
    WfDB ⟨db.rows ++ [⟨db.nextId, u, lt, dn, nt, now, now⟩], db.nextId + 1⟩ := by
  intro r hr
  rcases List.mem_append.mp hr with hr | hr
  · exact h r hr
  · simp only [List.mem_singleton] at hr
    subst hr
    obtain ⟨s, rfl⟩ := hu
    exact ⟨cleanL_lower s.data, cleanL_edgeClean s.data, hlt⟩

theorem wf_create (db : DB) (u lt dn nt : Option String) (now : Nat) (h : WfDB db) :
    WfDB (postHandler db u lt dn nt now).2 := by
  rcases postHandler_state db u lt dn nt now with ⟨hs, _⟩ | ⟨hv, _, _, hs⟩
  · rw [hs]; exact h
  · have hstate : (postHandler db u lt dn nt now).2 =
        ⟨db.rows ++ [postedRow db u lt dn nt now], db.nextId + 1⟩ := by rw [hs]
    rw [hstate]
    exact wf_insert db _ _ _ _ now h ⟨u.getD "", rfl⟩ hv

theorem wf_update (db : DB) (id : Nat) (u lt : Option String)
    (dn nt : Option (Option String)) (now : Nat) (h : WfDB db) :
    WfDB (putHandler db id u lt dn nt now).2 := by
  rcases putHandler_state db id u lt dn nt now with hs | ⟨existing, hfind, _, hvl, hs⟩
  · rw [hs]; exact h
  · obtain ⟨_, hmem⟩ := findById_id hfind
    have hex := h existing hmem
    have hstate : (putHandler db id u lt dn nt now).2 =
        ⟨db.rows.map (fun r => if r.id == id then updatedRow existing u lt dn nt now else r),
         db.nextId⟩ := by rw [hs]
    rw [hstate]
    intro r hr
    rw [List.mem_map] at hr
    obtain ⟨a, ha, rfl⟩ := hr
    by_cases haid : (a.id == id) = true
    · rw [if_pos haid]
      refine ⟨?_, ?_, ?_⟩
      · show lowerC (mergedUsername existing u).data = (mergedUsername existing u).data
        unfold mergedUsername
        by_cases ht : truthy u = true
        · rw [if_pos ht]
          exact cleanL_lower _
        · rw [if_neg ht]
          exact hex.1
      · show edgeClean (mergedUsername existing u).data = true
        unfold mergedUsername
        by_cases ht : truthy u = true
        · rw [if_pos ht]
          exact cleanL_edgeClean _
        · rw [if_neg ht]
          exact hex.2.1
      · show validListType (mergedListType existing lt) = true
        unfold mergedListType
        by_cases ht : truthy lt = true
        · rw [if_pos ht]
          exact hvl ht
        · rw [if_neg ht]
          exact hex.2.2
    · rw [if_neg haid]
      exact h a ha

theorem wf_filter (db : DB) (p : Row → Bool) (h : WfDB db) :
    WfDB ⟨db.rows.filter p, db.nextId⟩ :=
  fun r hr => h r (List.mem_of_mem_filter hr)

theorem wf_bulkInsert (lt : String) (now : Nat) (hlt : validListType lt = true) :
    ∀ (us : List String) (db : DB), WfDB db → WfDB (bulkInsert lt now db us).1 := by
  intro us
  induction us with
  | nil => intro db h; exact h
  | cons u rest ih =>
    intro db h
    show WfDB (bulkInsert lt now db (u :: rest)).1
    unfold bulkInsert
    by_cases h1 : (cleanU u == "") = true
    · rw [if_pos h1]
      exact ih db h
    · rw [if_neg h1]
      by_cases h2 : hasPair db.rows (cleanU u) lt = true
      · rw [if_pos h2]
        exact ih db h
      · rw [if_neg h2]
        exact ih _ (wf_insert db (cleanU u) lt none none now h ⟨u, rfl⟩ hlt)

theorem wf_step (db : DB) (op : Op) (h : WfDB db) : WfDB (step db op) := by
  cases op with
  | create u lt dn nt now => exact wf_create db u lt dn nt now h
  | update id u lt dn nt now => exact wf_update db id u lt dn nt now h
  | remove id =>
    show WfDB (deleteHandler db id).2
    rcases deleteHandler_state db id with hs | hs
    · rw [hs]; exact h
    · rw [hs]; exact wf_filter db _ h
  | removeList lt =>
    show WfDB (deleteListHandler db lt).2
    rcases deleteListHandler_state db lt with hs | hs
    · rw [hs]; exact h
    · rw [hs]; exact wf_filter db _ h
  | bulkImport us lt now =>
    show WfDB (bulkHandler db us lt now).2
    cases us with
    | none =>
      simp only [bulkHandler]
      exact h
    | some us2 =>
      simp only [bulkHandler]
      by_cases h1 : falsy lt = true
      · rw [if_pos h1]
        exact h
      · rw [if_neg h1]
        by_cases h2 : validListType (lt.getD "") = true
        · rw [if_neg (show ¬ ((!validListType (lt.getD "")) = true) by rw [h2]; simp)]
          exact wf_bulkInsert (lt.getD "") now h2 us2 db h
        · have hv : validListType (lt.getD "") = false := Bool.eq_false_iff.mpr h2
          rw [if_pos (show (!validListType (lt.getD "")) = true by rw [hv]; rfl)]
          exact h

/-- POST only adds rows with a non-empty username. -/
theorem post_rows_nonempty (db : DB) (u lt dn nt : Option String) (now : Nat) :
    ∀ r ∈ (postHandler db u lt dn nt now).2.rows, r ∈ db.rows ∨ r.username ≠ "" := by
  rcases postHandler_state db u lt dn nt now with ⟨hs, _⟩ | ⟨_, hne, _, hs⟩
  · rw [hs]
    exact fun r hr => Or.inl hr
  · have hstate : (postHandler db u lt dn nt now).2 =
        ⟨db.rows ++ [postedRow db u lt dn nt now], db.nextId + 1⟩ := by rw [hs]
    rw [hstate]
    intro r hr
    rcases List.mem_append.mp hr with hr | hr
    · exact Or.inl hr
    · simp only [List.mem_singleton] at hr
      subst hr
      exact Or.inr hne

theorem bulkInsert_rows_nonempty (lt : String) (now : Nat) :
    ∀ (us : List String) (db : DB), ∀ r ∈ (bulkInsert lt now db us).1.rows,
      r ∈ db.rows ∨ r.username ≠ "" := by
  intro us
  induction us with
  | nil => intro db r hr; exact Or.inl hr
  | cons u rest ih =>
    intro db r hr
    unfold bulkInsert at hr
    by_cases h1 : (cleanU u == "") = true
    · rw [if_pos h1] at hr
      exact ih db r hr
    · rw [if_neg h1] at hr
      by_cases h2 : hasPair db.rows (cleanU u) lt = true
      · rw [if_pos h2] at hr
        exact ih db r hr
      · rw [if_neg h2] at hr
        rcases ih _ r hr with hmem | hne
        · rcases List.mem_append.mp hmem with hmem | hmem
          · exact Or.inl hmem
          · simp only [List.mem_singleton] at hmem
            subst hmem
            exact Or.inr (by simpa using h1)
        · exact Or.inr hne

/-- Bulk import only adds rows with a non-empty username. -/
theorem bulk_rows_nonempty (db : DB) (us : Option (List String)) (lt : Option String)
    (now : Nat) : ∀ r ∈ (bulkHandler db us lt now).2.rows, r ∈ db.rows ∨ r.username ≠ "" := by
  cases us with
  | none =>
    simp only [bulkHandler]
    exact fun r hr => Or.inl hr
  | some us2 =>
    simp only [bulkHandler]
    by_cases h1 : falsy lt = true
    · rw [if_pos h1]
      exact fun r hr => Or.inl hr
    · rw [if_neg h1]
      by_cases h2 : (!validListType (lt.getD "")) = true
      · rw [if_pos h2]
        exact fun r hr => Or.inl hr
      · rw [if_neg h2]
        exact bulkInsert_rows_nonempty (lt.getD "") now us2 db

/-- Events are flushed (once) before the bulk response. -/
theorem fbr_replicate (n : Nat) :
    ∀ b : Bool, flushedBeforeRespond (List.replicate n .mutate ++ [.flush, .respond]) b = true := by
  induction n with
  | zero => intro b; rfl
  | succ k ih =>
    intro b
    rw [List.replicate_succ, List.cons_append]
    show flushedBeforeRespond (List.replicate k .mutate ++ [.flush, .respond]) true = true
    exact ih true

/-! ## Helper facts -/
/-- A `list_type` that validates cannot have been a falsy request field. -/
theorem valid_not_falsy (lt : Option String) (h : validListType (lt.getD "") = true) :
    falsy lt = false := by
  cases lt with
  | none => exact absurd h (by decide)
  | some s =>
    show (s == "") = false
    simp only [Option.getD_some, validListType, Bool.or_eq_true, beq_iff_eq] at h
    rcases h with h | h <;> subst h <;> rfl

/-- A valid `list_type` value is not the empty string. -/
theorem valid_not_empty (l : String) (h : validListType l = true) : (l == "") = false := by
  simp only [validListType, Bool.or_eq_true, beq_iff_eq] at h
  rcases h with h | h <;> subst h <;> rfl

/-! ## Claim C1 -/

/-- C1, counterexample: on a table holding (alice, following) and
(bob, following), `PUT /api/usernames/2` with body `{username: "alice"}`
merges to the pair of row 1, and the response is a 500 server error — not
the 409 conflict the claim states (the table is left unchanged). -/
theorem c1_put_duplicate_counterexample :
    putStatus (putHandler dbAB 2 (some "alice") none none none 5).1 = 500 ∧
    putStatus (putHandler dbAB 2 (some "alice") none none none 5).1 ≠ 409 ∧
    (putHandler dbAB 2 (some "alice") none none none 5).2 = dbAB := by
  decide

/-- C1 (amended): a PUT on an existing row whose merged (username, list_type)
pair equals the pair of some other existing row answers a 500 server error —
the `UNIQUE` constraint aborts the UPDATE, the generic catch replies 500 —
and the table is unchanged. -/
theorem c1_put_duplicate_gives_500 (db : DB) (id : Nat) (u lt : Option String)
    (dn nt : Option (Option String)) (now : Nat) (existing : Row)
    (hfind : findById db.rows id = some existing)
    (hvl : truthy lt = true → validListType (lt.getD "") = true)
    (hdup : ∃ r ∈ db.rows, r.id ≠ id ∧ r.username = mergedUsername existing u ∧
      r.list_type = mergedListType existing lt) :
    putHandler db id u lt dn nt now = (.serverError "Failed to update username", db) ∧
    putStatus (putHandler db id u lt dn nt now).1 = 500 := by
  have hcond : (truthy lt && !validListType (lt.getD "")) = false := by
    by_cases ht : truthy lt = true
    · rw [ht, hvl ht]
      rfl
    · rw [Bool.eq_false_iff.mpr ht]
      rfl
  have hany : (db.rows.any (fun r => r.id != id &&
      r.username == mergedUsername existing u &&
      r.list_type == mergedListType existing lt)) = true := by
    obtain ⟨r, hr, h1, h2, h3⟩ := hdup
    refine List.any_eq_true.mpr ⟨r, hr, ?_⟩
    simp only [Bool.and_eq_true, bne_iff_ne, ne_eq, beq_iff_eq]
    exact ⟨⟨h1, h2⟩, h3⟩
  have heq : putHandler db id u lt dn nt now =
      (.serverError "Failed to update username", db) := by
    simp only [putHandler, hfind]
    rw [if_neg (show ¬ ((truthy lt && !validListType (lt.getD "")) = true) by
          rw [hcond]; simp),
        if_pos hany]
  refine ⟨heq, ?_⟩
  rw [heq]
  rfl

/-- C1 witness: the amended theorem applied to the concrete two-row table. -/
theorem c1_put_duplicate_witness :
    findById dbAB.rows 2 = some ⟨2, "bob", "following", none, none, 1, 1⟩ ∧
    putHandler dbAB 2 (some "alice") none none none 5 =
      (.serverError "Failed to update username", dbAB) :=
  ⟨by decide,
   (c1_put_duplicate_gives_500 dbAB 2 (some "alice") none none none 5
      ⟨2, "bob", "following", none, none, 1, 1⟩ (by decide) (by decide)
      ⟨⟨1, "alice", "following", none, none, 0, 0⟩,
        by decide, by decide, by decide, by decide⟩).1⟩

/-! ## Claim C2 -/

/-- C2, counterexample: a PUT whose `username` field is `"@"` normalizes to
the empty string and is stored (the PUT handler has no emptiness check), and
a POST of `" @Foo"` stores `"@foo"`, which keeps a leading `@` (the `@` is
stripped before trimming).  Both outcomes violate the claimed invariant. -/
theorem c2_normalized_invariant_counterexample :
    (∃ r ∈ (putHandler dbAlice 1 (some "@") none none none 1).2.rows,
      r.username = "") ∧
    (∃ r ∈ (postHandler initDB (some " @Foo") (some "following") none none 0).2.rows,
      r.username.data.head? = some '@') := by
  decide

/-- C2 (amended): every operation preserves the invariant that each stored
row has a lowercase username with no surrounding whitespace and a valid
list type; POST and bulk import furthermore only add rows whose username is
non-empty.  (A PUT whose username normalizes to empty, or an input with
whitespace or a second `@` before the name, escapes the stronger claimed
invariant, as the counterexample shows.) -/
theorem c2_wf_invariant_preserved :
    WfDB initDB ∧
    (∀ (db : DB) (op : Op), WfDB db → WfDB (step db op)) ∧
    (∀ (db : DB) (u lt dn nt : Option String) (now : Nat),
      ∀ r ∈ (postHandler db u lt dn nt now).2.rows, r ∈ db.rows ∨ r.username ≠ "") ∧
    (∀ (db : DB) (us : Option (List String)) (lt : Option String) (now : Nat),
      ∀ r ∈ (bulkHandler db us lt now).2.rows, r ∈ db.rows ∨ r.username ≠ "") :=
  ⟨fun r hr => absurd hr (List.not_mem_nil r), wf_step, post_rows_nonempty,
   bulk_rows_nonempty⟩

/-- C2 witness: the preservation part applied to a concrete create. -/
theorem c2_wf_invariant_witness :
    WfDB dbAlice ∧
    WfDB (step dbAlice (.create (some "@Bob ") (some "followers") none none 4)) :=
  ⟨by decide, c2_wf_invariant_preserved.2.1 dbAlice
    (.create (some "@Bob ") (some "followers") none none 4) (by decide)⟩

/-! ## Claim C3 -/

/-- C3, counterexample: POSTing `" @Foo"` is accepted and stores `"@foo"` —
the input's `@` is only removed when it is the first character, before
trimming, so the stored name keeps a leading `@`, contradicting the claim
that the stored result never starts with `@`. -/
theorem c3_post_leading_at_counterexample :
    (postHandler initDB (some " @Foo") (some "following") none none 0).1 =
      .created ⟨1, "@foo", "following", none, none, 0, 0⟩ ∧
    ("@foo" : String).data.head? = some '@' := by
  decide

/-- C3 (amended): every accepted POST stores exactly
`replace(/^@/, '')` then `trim()` then `toLowerCase()` of the input; the
stored name has no surrounding whitespace, and `"@Foo "` normalizes to
`"foo"`.  (The result can retain a leading `@` when the input's `@` is
preceded by whitespace or doubled, as the counterexample shows.) -/
theorem c3_post_stores_cleaned (db : DB) (u lt dn nt : Option String) (now : Nat)
    (row : Row) (h : (postHandler db u lt dn nt now).1 = .created row) :
    row.username = cleanU (u.getD "") ∧
    edgeClean row.username.data = true ∧
    cleanU "@Foo " = "foo" := by
  rcases postHandler_state db u lt dn nt now with ⟨_, hne⟩ | ⟨_, _, _, hs⟩
  · exact absurd h (hne row)
  · have h1 : (postHandler db u lt dn nt now).1 = .created (postedRow db u lt dn nt now) := by
      rw [hs]
    rw [h] at h1
    have hrow : row = postedRow db u lt dn nt now := by
      simpa [PostRes.created.injEq] using h1
    subst hrow
    exact ⟨rfl, cleanL_edgeClean _, by decide⟩

/-- C3 witness: the amended theorem applied to the spec's own example,
`"@Foo "` → `"foo"`. -/
theorem c3_post_stores_cleaned_witness :
    (postHandler initDB (some "@Foo ") (some "following") none none 0).1 =
      .created ⟨1, "foo", "following", none, none, 0, 0⟩ ∧
    (⟨1, "foo", "following", none, none, 0, 0⟩ : Row).username = cleanU "@Foo " :=
  ⟨by decide,
   (c3_post_stores_cleaned initDB (some "@Foo ") (some "following") none none 0
      ⟨1, "foo", "following", none, none, 0, 0⟩ (by decide)).1⟩

/-! ## Claim C4 -/

/-- C4, counterexample: a bulk import of two fresh names performs two
INSERT mutations and then a single `saveDatabase()` flush before
responding — the mutations are batched into one flush, contradicting the
per-mutation-flush claim. -/
theorem c4_bulk_batches_counterexample :
    bulkTrace initDB (some ["a", "b"]) (some "following") 0 =
      [.mutate, .mutate, .flush, .respond] ∧
    noBatch (bulkTrace initDB (some ["a", "b"]) (some "following") 0) false = false := by
  decide

/-- C4 (amended): create, update, delete and delete-by-list flush their
single mutation to the backing file before responding, with no batching;
bulk import also flushes before responding, but with one flush covering
all of its inserts. -/
theorem c4_flush_discipline :
    (∀ (db : DB) (u lt dn nt : Option String) (now : Nat),
      noBatch (postTrace db u lt dn nt now) false = true) ∧
    (∀ (db : DB) (id : Nat) (u lt : Option String) (dn nt : Option (Option String))
      (now : Nat), noBatch (putTrace db id u lt dn nt now) false = true) ∧
    (∀ (db : DB) (id : Nat), noBatch (deleteTrace db id) false = true) ∧
    (∀ (db : DB) (lt : String), noBatch (deleteListTrace db lt) false = true) ∧
    (∀ (db : DB) (us : Option (List String)) (lt : Option String) (now : Nat),
      flushedBeforeRespond (bulkTrace db us lt now) false = true) := by
  refine ⟨?_, ?_, ?_, ?_, ?_⟩
  · intro db u lt dn nt now
    unfold postTrace
    cases (postHandler db u lt dn nt now).1 <;> rfl
  · intro db id u lt dn nt now
    unfold putTrace
    cases (putHandler db id u lt dn nt now).1 <;> rfl
  · intro db id
    unfold deleteTrace
    cases (deleteHandler db id).1 <;> rfl
  · intro db lt
    unfold deleteListTrace
    cases (deleteListHandler db lt).1 <;> rfl
  · intro db us lt now
    unfold bulkTrace
    cases (bulkHandler db us lt now).1 with
    | badRequest e => rfl
    | ok imported total => exact fbr_replicate imported false

/-! ## Claim C5 -/

/-- C5: once a POST has created a (username, list_type) pair, a second POST
whose username normalizes to the same cleaned name, with the same list type,
answers a 409 conflict and leaves the table exactly as it was. -/
theorem c5_post_duplicate_conflict (db : DB) (u1 lt dn nt : Option String) (now : Nat)
    (row : Row) (db2 : DB) (u2 : String) (dn2 nt2 : Option String) (now2 : Nat)
    (hfirst : postHandler db u1 lt dn nt now = (.created row, db2))
    (hsame : cleanU u2 = cleanU (u1.getD "")) :
    postHandler db2 (some u2) lt dn2 nt2 now2 =
      (.conflict "Username already exists in this list", db2) ∧
    postStatus (postHandler db2 (some u2) lt dn2 nt2 now2).1 = 409 := by
  rcases postHandler_state db u1 lt dn nt now with ⟨_, hnc⟩ | ⟨hv, hne, _, hs⟩
  · exact absurd (congrArg Prod.fst hfirst) (hnc row)
  · have hdb2 : db2 = ⟨db.rows ++ [postedRow db u1 lt dn nt now], db.nextId + 1⟩ :=
      (congrArg Prod.snd hfirst).symm.trans (congrArg Prod.snd hs)
    have hu2ne : (u2 == "") = false := by
      rw [beq_eq_false_iff_ne]
      intro he
      subst he
      exact hne hsame.symm
    have hfalsy : (falsy (some u2) || falsy lt) = false := by
      rw [valid_not_falsy lt hv, Bool.or_false]
      exact hu2ne
    have hpair2 : hasPair db2.rows (cleanU u2) (lt.getD "") = true := by
      rw [hdb2, hsame]
      refine List.any_eq_true.mpr ⟨postedRow db u1 lt dn nt now,
        List.mem_append_right _ (List.mem_singleton_self _), ?_⟩
      show ((postedRow db u1 lt dn nt now).username == cleanU (u1.getD "") &&
        (postedRow db u1 lt dn nt now).list_type == lt.getD "") = true
      simp [postedRow]
    have heq : postHandler db2 (some u2) lt dn2 nt2 now2 =
        (.conflict "Username already exists in this list", db2) := by
      simp only [postHandler]
      rw [if_neg (show ¬ ((falsy (some u2) || falsy lt) = true) by rw [hfalsy]; simp),
          if_neg (show ¬ ((!validListType (lt.getD "")) = true) by rw [hv]; simp)]
      rw [if_neg (show ¬ ((cleanU ((some u2).getD "") == "") = true) by
            show ¬ ((cleanU u2 == "") = true)
            rw [hsame, beq_eq_false_iff_ne.mpr hne]
            simp),
          if_pos (show hasPair db2.rows (cleanU ((some u2).getD "")) (lt.getD "") = true by
            show hasPair db2.rows (cleanU u2) (lt.getD "") = true
            exact hpair2)]
    refine ⟨heq, ?_⟩
    rw [heq]
    rfl

/-- C5 witness: creating (alice, following) and re-POSTing `"@ALICE "`,
which normalizes to the same pair, yields the conflict. -/
theorem c5_post_duplicate_witness :
    postHandler initDB (some "alice") (some "following") none none 0 =
      (.created ⟨1, "alice", "following", none, none, 0, 0⟩, dbAlice) ∧
    cleanU "@ALICE " = cleanU "alice" ∧
    postHandler dbAlice (some "@ALICE ") (some "following") none none 7 =
      (.conflict "Username already exists in this list", dbAlice) :=
  ⟨by decide, by decide,
   (c5_post_duplicate_conflict initDB (some "alice") (some "following") none none 0
      ⟨1, "alice", "following", none, none, 0, 0⟩ dbAlice "@ALICE " none none 7
      (by decide) (by decide)).1⟩

/-! ## Claim C6 -/

/-- C6: the (username, list_type)-uniqueness invariant holds for the
freshly created table and is preserved by every mutating operation
(create, update, delete, delete-by-list, bulk import); the auxiliary parts
of `Inv` (unique ids below the autoincrement counter) are carried along. -/
theorem c6_unique_pair_invariant :
    distinctPairs initDB.rows ∧
    (∀ (db : DB) (op : Op), Inv db → distinctPairs (step db op).rows ∧ Inv (step db op)) ∧
    (∀ db : DB, Inv db → distinctPairs db.rows) := by
  refine ⟨List.Pairwise.nil, ?_, fun db h => h.1⟩
  intro db op h
  have h2 := inv_step db op h
  exact ⟨h2.1, h2⟩

/-- C6 witness: preservation applied to a bulk import over a concrete
table. -/
theorem c6_unique_pair_witness :
    Inv dbAlice ∧
    distinctPairs (step dbAlice
      (.bulkImport (some ["alice", "@Alice", "bob"]) (some "following") 9)).rows :=
  ⟨by decide,
   (c6_unique_pair_invariant.2.1 dbAlice
      (.bulkImport (some ["alice", "@Alice", "bob"]) (some "following") 9) (by decide)).1⟩

/-! ## Claim C7 -/

/-- C7: for a valid list type, DELETE-by-list removes exactly the rows of
that list type (membership in the result is membership in the old table
minus that list type, and the survivors keep their order), and the
response's `changes` count is the number of removed rows. -/
theorem c7_delete_list_exact (db : DB) (lt : String) (h : validListType lt = true) :
    (deleteListHandler db lt).1 =
      .ok ((db.rows.filter (fun r => r.list_type == lt)).length) ∧
    (deleteListHandler db lt).2.rows.Sublist db.rows ∧
    (∀ r : Row, r ∈ (deleteListHandler db lt).2.rows ↔ r ∈ db.rows ∧ r.list_type ≠ lt) := by
  unfold deleteListHandler
  rw [if_neg (show ¬ ((!validListType lt) = true) by rw [h]; simp)]
  refine ⟨?_, ?_, ?_⟩
  · show DeleteListRes.ok (db.rows.countP (fun r => r.list_type == lt)) = _
    rw [List.countP_eq_length_filter]
  · exact List.filter_sublist _
  · intro r
    rw [List.mem_filter]
    simp [bne_iff_ne]

/-- C7 witness: deleting the `following` list from a two-list table. -/
theorem c7_delete_list_witness :
    validListType "following" = true ∧
    ((deleteListHandler ⟨[⟨1, "a", "following", none, none, 0, 0⟩,
        ⟨2, "b", "followers", none, none, 5, 5⟩], 3⟩ "following").1 =
      .ok (([⟨1, "a", "following", none, none, 0, 0⟩,
        ⟨2, "b", "followers", none, none, 5, 5⟩] :
          List Row).filter (fun r => r.list_type == "following")).length) :=
  ⟨by decide,
   (c7_delete_list_exact ⟨[⟨1, "a", "following", none, none, 0, 0⟩,
      ⟨2, "b", "followers", none, none, 5, 5⟩], 3⟩ "following" (by decide)).1⟩

/-! ## Claim C8 -/

/-- C8, counterexample: `GET /api/health` replies
`{status: 'ok', timestamp: ...}` — there is no `success` field at all, so
the health route does not follow the claimed envelope. -/
theorem c8_health_envelope_counterexample :
    isEnvelope (healthJson "2026-01-01T00:00:00.000Z") = false ∧
    isEnvelopeRelaxed (healthJson "2026-01-01T00:00:00.000Z") = false := by
  decide

/-- C8 (amended): every response of every API route except
`GET /api/health` carries a boolean `success` field, with an `error` field
on failure and a `data` or `message` field on success; the health route
returns `{status, timestamp}` with no envelope at all. -/
theorem c8_responses_envelope :
    (∀ rows : List Row, isEnvelopeRelaxed (listJson rows) = true) ∧
    (∀ g : GetOneRes, isEnvelopeRelaxed (getOneJson g) = true) ∧
    (∀ p : PostRes, isEnvelopeRelaxed (postJson p) = true) ∧
    (∀ p : PutRes, isEnvelopeRelaxed (putJson p) = true) ∧
    (∀ d : DeleteRes, isEnvelopeRelaxed (deleteJson d) = true) ∧
    (∀ (lt : String) (d : DeleteListRes), isEnvelopeRelaxed (deleteListJson lt d) = true) ∧
    (∀ b : BulkRes, isEnvelopeRelaxed (bulkJson b) = true) ∧
    (∀ s : SearchRes, isEnvelopeRelaxed (searchJson s) = true) ∧
    (∀ p : Nat × Nat, isEnvelopeRelaxed (statsJson p) = true) ∧
    (∀ ts : String, isEnvelope (healthJson ts) = false ∧
      isEnvelopeRelaxed (healthJson ts) = false) := by
  refine ⟨fun rows => rfl, ?_, ?_, ?_, ?_, ?_, ?_, ?_, fun p => rfl, fun ts => ⟨rfl, rfl⟩⟩
  · intro g
    cases g <;> rfl
  · intro p
    cases p <;> rfl
  · intro p
    cases p <;> rfl
  · intro d
    cases d <;> rfl
  · intro lt d
    cases d <;> rfl
  · intro b
    cases b <;> rfl
  · intro s
    cases s <;> rfl

/-! ## Claim C9 -/

/-- C9, counterexample: the search query is pasted into `LIKE '%q%'`
unescaped, so the wildcard query `"_"` matches the row `foo` even though
`"_"` does not occur as a substring of any of its fields. -/
theorem c9_search_wildcard_counterexample :
    searchData (searchHandler dbFoo (some "_") none) = [rowFoo] ∧
    ¬ ciOccurs "_" (some "foo") ∧
    rowFoo.display_name = none ∧ rowFoo.notes = none := by
  refine ⟨?_, by decide, rfl, rfl⟩
  have hf : dbFoo.rows.filter (fun r => rowMatches "_" r) = [rowFoo] := by decide
  show searchData (.ok ((dbFoo.rows.filter
    (fun r => rowMatches ((some "_" : Option String).getD "") r)).mergeSort leListCreated)) = _
  show (dbFoo.rows.filter (fun r => rowMatches "_" r)).mergeSort leListCreated = _
  rw [hf, List.mergeSort_singleton]

/-- A `LIKE` test against a nullable column agrees with case-insensitive
substring occurrence, for wildcard-free queries. -/
theorem fieldLike_iff (q : String) (hq : ∀ c ∈ q.data, c ≠ '%' ∧ c ≠ '_')
    (f : Option String) : fieldLike q f = true ↔ ciOccurs q f := by
  cases f with
  | none => simp [fieldLike, ciOccurs]
  | some s =>
    show likeM (patFor q) s.data = true ↔ _
    rw [likeM_patFor_iff q s.data hq]
    exact Iff.rfl

/-- The three-column `LIKE` disjunction of the search route agrees with the
claim's substring predicate, for wildcard-free queries. -/
theorem rowMatches_iff (q : String) (hq : ∀ c ∈ q.data, c ≠ '%' ∧ c ≠ '_') (r : Row) :
    rowMatches q r = true ↔
      (ciOccurs q (some r.username) ∨ ciOccurs q r.display_name ∨ ciOccurs q r.notes) := by
  unfold rowMatches
  rw [Bool.or_eq_true, Bool.or_eq_true, fieldLike_iff q hq, fieldLike_iff q hq,
    fieldLike_iff q hq]
  exact or_assoc

/-- C9 (amended): for a non-empty query that contains no `%` or `_`
wildcard, a row is returned by `GET /api/search` exactly when the query
occurs case-insensitively as a substring of its username, display name or
notes, and, when a valid `list_type` filter is supplied, the row belongs to
that list.  (Queries containing wildcards match per SQL `LIKE`, as the
counterexample shows.) -/
theorem c9_search_substring (db : DB) (q : String) (lt : Option String) (r : Row)
    (hq : q ≠ "") (hw : ∀ c ∈ q.data, c ≠ '%' ∧ c ≠ '_') :
    r ∈ searchData (searchHandler db (some q) lt) ↔
      (r ∈ db.rows ∧
       (ciOccurs q (some r.username) ∨ ciOccurs q r.display_name ∨ ciOccurs q r.notes) ∧
       (∀ l, lt = some l → validListType l = true → r.list_type = l)) := by
  have hfq : ¬ (falsy (some q) = true) := by
    show ¬ ((q == "") = true)
    rw [beq_eq_false_iff_ne.mpr hq]
    simp
  unfold searchHandler
  rw [if_neg hfq]
  by_cases hv : (truthy lt && validListType (lt.getD "")) = true
  · rw [if_pos hv]
    obtain ⟨l, rfl, hvl⟩ : ∃ l, lt = some l ∧ validListType l = true := by
      cases lt with
      | none => exact absurd hv (by decide)
      | some l =>
        refine ⟨l, rfl, ?_⟩
        simp only [Bool.and_eq_true] at hv
        exact hv.2
    show r ∈ (db.rows.filter (fun r2 => rowMatches q r2 && r2.list_type == l)).mergeSort
      leCreated ↔ _
    rw [(List.mergeSort_perm _ _).mem_iff, List.mem_filter, Bool.and_eq_true]
    constructor
    · rintro ⟨hmem, hm, hl⟩
      refine ⟨hmem, (rowMatches_iff q hw r).mp hm, ?_⟩
      intro l2 hl2 _
      cases hl2
      exact beq_iff_eq.mp hl
    · rintro ⟨hmem, hocc, hfil⟩
      exact ⟨hmem, (rowMatches_iff q hw r).mpr hocc, beq_iff_eq.mpr (hfil l rfl hvl)⟩
  · rw [if_neg hv]
    show r ∈ (db.rows.filter (fun r2 => rowMatches q r2)).mergeSort leListCreated ↔ _
    rw [(List.mergeSort_perm _ _).mem_iff, List.mem_filter]
    constructor
    · rintro ⟨hmem, hm⟩
      refine ⟨hmem, (rowMatches_iff q hw r).mp hm, ?_⟩
      intro l hl2 hvl2
      subst hl2
      have hne : (l == "") = false := valid_not_empty l hvl2
      have : (truthy (some l) && validListType ((some l).getD "")) = true := by
        show ((!(l == "")) && validListType l) = true
        rw [hne, hvl2]
        rfl
      exact absurd this hv
    · rintro ⟨hmem, hocc, _⟩
      exact ⟨hmem, (rowMatches_iff q hw r).mpr hocc⟩

/-- C9 witness: searching `"OO"` (uppercase) finds the row `foo`. -/
theorem c9_search_substring_witness :
    ("OO" : String) ≠ "" ∧
    (rowFoo ∈ searchData (searchHandler dbFoo (some "OO") none) ↔
      (rowFoo ∈ dbFoo.rows ∧
       (ciOccurs "OO" (some rowFoo.username) ∨ ciOccurs "OO" rowFoo.display_name ∨
        ciOccurs "OO" rowFoo.notes) ∧
       (∀ l, (none : Option String) = some l → validListType l = true →
         rowFoo.list_type = l))) :=
  ⟨by decide,
   c9_search_substring dbFoo "OO" none rowFoo (by decide) (by decide)⟩

/-! ## Claim C10 -/

/-- C10: a `list_type` query value that is neither `following` nor
`followers` is silently ignored by `GET /api/usernames`: the response is
identical to the unfiltered one, returns every stored row, and is ordered
by list type then by recency (`created_at` descending). -/
theorem c10_invalid_filter_ignored (db : DB) (lt : String)
    (h1 : lt ≠ "following") (h2 : lt ≠ "followers") :
    listHandler db (some lt) = listHandler db none ∧
    (listHandler db (some lt)).Perm db.rows ∧
    List.Pairwise (fun a b => leListCreated a b = true) (listHandler db (some lt)) := by
  have hv : validListType lt = false := by
    unfold validListType
    rw [beq_eq_false_iff_ne.mpr h1, beq_eq_false_iff_ne.mpr h2]
    rfl
  have heq : listHandler db (some lt) = listHandler db none := by
    unfold listHandler
    rw [if_neg (show ¬ ((truthy (some lt) && validListType ((some lt).getD "")) = true) by
          show ¬ (((truthy (some lt)) && validListType lt) = true)
          rw [hv, Bool.and_false]
          simp),
        if_neg (show ¬ ((truthy (none : Option String) &&
          validListType ((none : Option String).getD "")) = true) by decide)]
  have hperm : (listHandler db (some lt)).Perm db.rows := by
    rw [heq]
    show (db.rows.mergeSort leListCreated).Perm db.rows
    exact List.mergeSort_perm _ _
  refine ⟨heq, hperm, ?_⟩
  rw [heq]
  show List.Pairwise (fun a b => leListCreated a b = true) (db.rows.mergeSort leListCreated)
  exact List.sorted_mergeSort leListCreated_trans leListCreated_total db.rows

/-- C10 witness: the invalid filter value `"bogus"` on a two-row table. -/
theorem c10_invalid_filter_witness :
    ("bogus" : String) ≠ "following" ∧ ("bogus" : String) ≠ "followers" ∧
    listHandler ⟨[⟨1, "a", "following", none, none, 0, 0⟩,
        ⟨2, "b", "followers", none, none, 5, 5⟩], 3⟩ (some "bogus") =
      listHandler ⟨[⟨1, "a", "following", none, none, 0, 0⟩,
        ⟨2, "b", "followers", none, none, 5, 5⟩], 3⟩ none :=
  ⟨by decide, by decide,
   (c10_invalid_filter_ignored ⟨[⟨1, "a", "following", none, none, 0, 0⟩,
      ⟨2, "b", "followers", none, none, 5, 5⟩], 3⟩ "bogus"
      (by decide) (by decide)).1⟩

end XUsernames
